import Mathlib

/-!
Verification development for the claude-mem response-acquisition pipeline
(`src/sdk/parser.ts` / the CustomAgent provider layer).

The TypeScript source is shallowly embedded: strings are `List Char`
(wrapped into `String` at the API boundary), `JSON.parse` is modelled by an
executable recursive-descent parser over the JSON grammar producing a
`JValue`, exceptions become `Option`/`Except`, and the stateful SSE decoding
loops become structural recursions threading their state explicitly.
-/

set_option maxRecDepth 10000

namespace ClaudeMem

/-- JavaScript whitespace class `\s` (the ASCII members; the source only ever
meets ASCII whitespace).  Used by `String.prototype.trim`, `trimEnd` and the
`/^\s*/` stripping of SSE data lines. -/
def isJsWs (c : Char) : Bool :=
  c = ' ' || c = '\t' || c = '\n' || c = '\r' || c = Char.ofNat 11 || c = Char.ofNat 12

/-- JSON grammar whitespace (the four characters allowed by `JSON.parse`). -/
def isJsonWs (c : Char) : Bool :=
  c = ' ' || c = '\t' || c = '\n' || c = '\r'

/-- `String.prototype.trim()` on a character list. -/
def trimL (cs : List Char) : List Char :=
  ((cs.dropWhile isJsWs).reverse.dropWhile isJsWs).reverse

/-- `String.prototype.trimEnd()` on a character list. -/
def trimEndL (cs : List Char) : List Char :=
  (cs.reverse.dropWhile isJsWs).reverse

/-- Boolean "starts with" on character lists (JS `String.prototype.startsWith`). -/
def leadsWith : List Char → List Char → Bool
  | [], _ => true
  | _ :: _, [] => false
  | p :: ps, c :: cs => p = c && leadsWith ps cs

/-- Boolean "ends with" on character lists (JS `String.prototype.endsWith`). -/
def trailsWith (p cs : List Char) : Bool :=
  leadsWith p.reverse cs.reverse

/-- JS `String.prototype.includes` for a single character. -/
def hasChar (cs : List Char) (c : Char) : Bool :=
  cs.contains c

/-- Lower-casing of ASCII letters, for the `/i` regex flags in `buildApiUrl`. -/
def lowerAscii (c : Char) : Char :=
  if 'A' ≤ c && c ≤ 'Z' then Char.ofNat (c.toNat + 32) else c

/-- Case-insensitive "ends with" (JS regex `/pat$/i`). -/
def trailsWithCI (p cs : List Char) : Bool :=
  leadsWith (p.reverse.map lowerAscii) (cs.reverse.map lowerAscii)

/-- `text.split(/\r?\n/)`: split on `\n` or `\r\n`; a lone `\r` stays in a line. -/
def splitLinesGo (cur : List Char) : List Char → List (List Char)
  | [] => [cur.reverse]
  | '\n' :: rest => cur.reverse :: splitLinesGo [] rest
  | '\r' :: '\n' :: rest => cur.reverse :: splitLinesGo [] rest
  | c :: rest => splitLinesGo (c :: cur) rest

def splitLinesL (cs : List Char) : List (List Char) :=
  splitLinesGo [] cs

/-- `fragments.join('\n')`. -/
def joinNL : List (List Char) → List Char
  | [] => []
  | [l] => l
  | l :: ls => l ++ '\n' :: joinNL ls

/-- First `some` in a list of options (ordered backtracking alternatives). -/
def firstSome : List (Option α) → Option α
  | [] => none
  | o :: os => match o with
    | some a => some a
    | none => firstSome os

/-! ## JSON value model

`JSON.parse` is modelled by an executable strict JSON parser.  Numbers keep
their literal text (the source never computes with decoded numbers, it only
tests them for truthiness); `\uXXXX` escapes are decoded with surrogate-pair
joining, a lone surrogate decodes to the replacement behaviour of
`Char.ofNat` (the source never inspects such strings). -/

inductive JValue where
  | null : JValue
  | bool : Bool → JValue
  | num : List Char → JValue
  | str : String → JValue
  | arr : List JValue → JValue
  | obj : List (String × JValue) → JValue

def hexVal (c : Char) : Option Nat :=
  if '0' ≤ c && c ≤ '9' then some (c.toNat - 48)
  else if 'a' ≤ c && c ≤ 'f' then some (c.toNat - 87)
  else if 'A' ≤ c && c ≤ 'F' then some (c.toNat - 55)
  else none

def hex4 (a b c d : Char) : Option Nat := do
  let x ← hexVal a
  let y ← hexVal b
  let z ← hexVal c
  let w ← hexVal d
  pure (x * 4096 + y * 256 + z * 16 + w)

/-- Body of a JSON string literal after the opening quote: returns the decoded
characters and the input remaining after the closing quote.  `\uXXXX` escapes
are decoded as single code units (surrogate-pair joining is not modelled: the
source never inspects the decoded characters of such strings, and `Char.ofNat`
maps an unpaired surrogate to U+0000). -/
def parseStrTail (acc : List Char) : List Char → Option (List Char × List Char)
  | [] => none
  | '"' :: rest => some (acc.reverse, rest)
  | '\\' :: esc => match esc with
    | '"' :: rest => parseStrTail ('"' :: acc) rest
    | '\\' :: rest => parseStrTail ('\\' :: acc) rest
    | '/' :: rest => parseStrTail ('/' :: acc) rest
    | 'b' :: rest => parseStrTail (Char.ofNat 8 :: acc) rest
    | 'f' :: rest => parseStrTail (Char.ofNat 12 :: acc) rest
    | 'n' :: rest => parseStrTail ('\n' :: acc) rest
    | 'r' :: rest => parseStrTail ('\r' :: acc) rest
    | 't' :: rest => parseStrTail ('\t' :: acc) rest
    | 'u' :: a :: b :: c :: d :: rest =>
      match hex4 a b c d with
      | none => none
      | some n => parseStrTail (Char.ofNat n :: acc) rest
    | _ => none
  | c :: rest =>
    if c.toNat < 32 then none else parseStrTail (c :: acc) rest

def isDigitC (c : Char) : Bool := '0' ≤ c && c ≤ '9'

/-- The integer part of a JSON number: `0` or a nonzero digit followed by
digits (leading zeros are a syntax error for `JSON.parse`). -/
def parseIntPart : List Char → Option (List Char × List Char)
  | '0' :: rest => some (['0'], rest)
  | c :: rest =>
    if isDigitC c && c ≠ '0' then
      some (c :: rest.takeWhile isDigitC, rest.dropWhile isDigitC)
    else none
  | [] => none

def parseFracPart : List Char → Option (List Char × List Char)
  | '.' :: rest =>
    let ds := rest.takeWhile isDigitC
    if ds = [] then none else some ('.' :: ds, rest.dropWhile isDigitC)
  | cs => some ([], cs)

def parseExpPart : List Char → Option (List Char × List Char)
  | e :: rest =>
    if e = 'e' || e = 'E' then
      let signAndDigits : List Char × List Char :=
        match rest with
        | s :: r2 => if s = '+' || s = '-' then ([s], r2) else ([], rest)
        | [] => ([], [])
      let ds := signAndDigits.2.takeWhile isDigitC
      if ds = [] then none
      else some (e :: signAndDigits.1 ++ ds, signAndDigits.2.dropWhile isDigitC)
    else some ([], e :: rest)
  | [] => some ([], [])

/-- A JSON number literal; returns the literal characters and the rest. -/
def parseNumLit (cs : List Char) : Option (List Char × List Char) :=
  let signed : List Char × List Char :=
    match cs with
    | '-' :: r => (['-'], r)
    | _ => ([], cs)
  match parseIntPart signed.2 with
  | none => none
  | some (ip, r1) =>
    match parseFracPart r1 with
    | none => none
    | some (fp, r2) =>
      match parseExpPart r2 with
      | none => none
      | some (ep, r3) => some (signed.1 ++ ip ++ fp ++ ep, r3)

def skipJsonWs (cs : List Char) : List Char := cs.dropWhile isJsonWs

mutual

/-- JSON value parser (fuel-indexed recursive descent; every branch tags its
result with the constructor it parses, so the root constructor determines the
first character). -/
def parseValue : Nat → List Char → Option (JValue × List Char)
  | 0, _ => none
  | Nat.succ fuel, cs =>
    match cs with
    | '{' :: rest => (parseObjBody fuel (skipJsonWs rest)).map (fun p => (JValue.obj p.1, p.2))
    | '[' :: rest => (parseArrBody fuel (skipJsonWs rest)).map (fun p => (JValue.arr p.1, p.2))
    | '"' :: rest => (parseStrTail [] rest).map (fun p => (JValue.str (String.mk p.1), p.2))
    | 't' :: rest => if leadsWith ['r', 'u', 'e'] rest then some (JValue.bool true, rest.drop 3) else none
    | 'f' :: rest => if leadsWith ['a', 'l', 's', 'e'] rest then some (JValue.bool false, rest.drop 4) else none
    | 'n' :: rest => if leadsWith ['u', 'l', 'l'] rest then some (JValue.null, rest.drop 3) else none
    | c :: _ =>
      if c = '-' || isDigitC c then (parseNumLit cs).map (fun p => (JValue.num p.1, p.2))
      else none
    | [] => none

/-- Object members after `{` (whitespace already skipped): `}` or a
comma-separated member list ending in `}`. -/
def parseObjBody : Nat → List Char → Option (List (String × JValue) × List Char)
  | 0, _ => none
  | Nat.succ fuel, cs =>
    match cs with
    | '}' :: rest => some ([], rest)
    | '"' :: rest =>
      match parseStrTail [] rest with
      | none => none
      | some (key, r1) =>
        match skipJsonWs r1 with
        | ':' :: r2 =>
          match parseValue fuel (skipJsonWs r2) with
          | none => none
          | some (v, r3) =>
            match skipJsonWs r3 with
            | ',' :: r4 =>
              match parseObjMore fuel (skipJsonWs r4) with
              | none => none
              | some (ms, r5) => some ((String.mk key, v) :: ms, r5)
            | '}' :: r4 => some ([(String.mk key, v)], r4)
            | _ => none
        | _ => none
    | _ => none

/-- Further object members after a comma (a member is mandatory here). -/
def parseObjMore : Nat → List Char → Option (List (String × JValue) × List Char)
  | 0, _ => none
  | Nat.succ fuel, cs =>
    match cs with
    | '"' :: rest =>
      match parseStrTail [] rest with
      | none => none
      | some (key, r1) =>
        match skipJsonWs r1 with
        | ':' :: r2 =>
          match parseValue fuel (skipJsonWs r2) with
          | none => none
          | some (v, r3) =>
            match skipJsonWs r3 with
            | ',' :: r4 =>
              match parseObjMore fuel (skipJsonWs r4) with
              | none => none
              | some (ms, r5) => some ((String.mk key, v) :: ms, r5)
            | '}' :: r4 => some ([(String.mk key, v)], r4)
            | _ => none
        | _ => none
    | _ => none

/-- Array elements after `[` (whitespace already skipped). -/
def parseArrBody : Nat → List Char → Option (List JValue × List Char)
  | 0, _ => none
  | Nat.succ fuel, cs =>
    match cs with
    | ']' :: rest => some ([], rest)
    | _ =>
      match parseValue fuel cs with
      | none => none
      | some (v, r1) =>
        match skipJsonWs r1 with
        | ',' :: r2 =>
          match parseArrMore fuel (skipJsonWs r2) with
          | none => none
          | some (vs, r3) => some (v :: vs, r3)
        | ']' :: r2 => some ([v], r2)
        | _ => none

/-- Further array elements after a comma (an element is mandatory here). -/
def parseArrMore : Nat → List Char → Option (List JValue × List Char)
  | 0, _ => none
  | Nat.succ fuel, cs =>
    match parseValue fuel cs with
    | none => none
    | some (v, r1) =>
      match skipJsonWs r1 with
      | ',' :: r2 =>
        match parseArrMore fuel (skipJsonWs r2) with
        | none => none
        | some (vs, r3) => some (v :: vs, r3)
      | ']' :: r2 => some ([v], r2)
      | _ => none

end

/-- `JSON.parse(text)`: `some v` on success, `none` when it throws. -/
def jsonParseL (cs : List Char) : Option JValue :=
  let s := skipJsonWs cs
  match parseValue (s.length + 1) s with
  | some (v, rest) => if skipJsonWs rest = [] then some v else none
  | none => none

/-- `JSON.parse(candidate)` succeeding, used by the balanced-JSON extractor. -/
def jsonValidL (cs : List Char) : Bool :=
  (jsonParseL cs).isSome

/-! ## JavaScript value access semantics

The decoders navigate parsed values with optional chaining
(`data.choices?.[0]?.delta?.content`), truthiness tests and `Array.isArray`.
These are modelled on `JValue`; property access on `null` (which throws in JS
and is swallowed by the surrounding `catch`) yields `none`, so the observable
outcome agrees with the source on every path. -/

/-- Property access `v.name`: only plain objects have named properties; with
duplicate keys `JSON.parse` keeps the last occurrence. -/
def jsGet (v : JValue) (key : String) : Option JValue :=
  match v with
  | JValue.obj ms => (ms.reverse.find? (fun m => m.1 = key)).map (fun m => m.2)
  | _ => none

/-- Index access `v?.[0]`. -/
def jsIdx0 (v : JValue) : Option JValue :=
  match v with
  | JValue.arr xs => xs.head?
  | JValue.obj ms => (ms.reverse.find? (fun m => m.1 = "0")).map (fun m => m.2)
  | JValue.str s =>
    match s.data with
    | [] => none
    | c :: _ => some (JValue.str (String.mk [c]))
  | _ => none

/-- Whether a JSON number literal denotes zero (all mantissa digits 0).
Extreme exponents that underflow to zero in IEEE doubles are not modelled;
no claim depends on them. -/
def numLitZero (lit : List Char) : Bool :=
  ((lit.takeWhile (fun c => c ≠ 'e' && c ≠ 'E')).filter isDigitC).all (fun c => c = '0')

/-- JavaScript truthiness of a parsed JSON value. -/
def jsTruthy (v : JValue) : Bool :=
  match v with
  | JValue.null => false
  | JValue.bool b => b
  | JValue.num lit => !numLitZero lit
  | JValue.str s => s ≠ ""
  | JValue.arr _ => true
  | JValue.obj _ => true

/-- JavaScript string conversion as used by `content += delta`.  In every
reachable case of the source the appended value is a string; other cases keep
an approximate rendering (exact IEEE number formatting is not modelled) and
are shared by code- and spec-side decoders, so no theorem depends on them. -/
def jsToStr (v : JValue) : List Char :=
  match v with
  | JValue.str s => s.data
  | JValue.num lit => lit
  | JValue.bool b => if b then ['t', 'r', 'u', 'e'] else ['f', 'a', 'l', 's', 'e']
  | JValue.null => ['n', 'u', 'l', 'l']
  | JValue.arr _ => []
  | JValue.obj _ => []

/-! ## Balanced-JSON extractor (`extractBalancedJsonFromIndex` / `extractBalancedJson`) -/

/-- The bracket/string scanning loop of `extractBalancedJsonFromIndex`:
`stack` holds the open brackets, `inStr`/`esc` the string-literal state, `acc`
the consumed characters (reversed).  Returns the balanced span on success. -/
def balGo (stack : List Char) (inStr esc : Bool) (acc : List Char) :
    List Char → Option (List Char)
  | [] => none
  | c :: rest =>
    if esc then balGo stack inStr false (c :: acc) rest
    else if c = '\\' && inStr then balGo stack inStr true (c :: acc) rest
    else if c = '"' then balGo stack (!inStr) false (c :: acc) rest
    else if inStr then balGo stack inStr false (c :: acc) rest
    else if c = '{' || c = '[' then balGo (c :: stack) inStr false (c :: acc) rest
    else if c = '}' || c = ']' then
      match stack with
      | [] => none
      | top :: stack2 =>
        let expected := if top = '{' then '}' else ']'
        if c ≠ expected then none
        else if stack2 = [] then some (c :: acc).reverse
        else balGo stack2 inStr false (c :: acc) rest
    else balGo stack inStr false (c :: acc) rest

/-- `extractBalancedJsonFromIndex(text, i)` viewed from the suffix starting at
`i`: the first character must be `{` or `[`; mismatched closers make the
candidate fail (return `none`), they never throw. -/
def spanAt : List Char → Option (List Char)
  | [] => none
  | c :: rest => if c = '{' || c = '[' then balGo [c] false false [c] rest else none

/-- The `scanFor(startChar)` loop of `extractBalancedJson`: left-to-right over
candidate start indices, returning the first balanced span that parses. -/
def scanFor (c0 : Char) : List Char → Option (List Char)
  | [] => none
  | c :: rest =>
    if c = c0 then
      match spanAt (c :: rest) with
      | some cand => if jsonValidL cand then some cand else scanFor c0 rest
      | none => scanFor c0 rest
    else scanFor c0 rest

/-- `extractBalancedJson(text, allowArray)`: all object-root candidates are
tried before any array-root candidate. -/
def extractBalancedJson (cs : List Char) (allowArray : Bool) : Option (List Char) :=
  match scanFor '{' cs with
  | some x => some x
  | none => if allowArray then scanFor '[' cs else none

/-- Claim-side formulation: the ordered list of balanced candidate spans whose
start character is `c0`, scanning start indices left to right. -/
def candidatesFor (c0 : Char) : List Char → List (List Char)
  | [] => []
  | c :: rest =>
    if c = c0 then
      match spanAt (c :: rest) with
      | some cand => cand :: candidatesFor c0 rest
      | none => candidatesFor c0 rest
    else candidatesFor c0 rest

/-- Claim-side formulation of the extractor: the first parse-valid candidate,
with every object-root candidate ordered before any array-root candidate. -/
def specExtractBalancedJson (cs : List Char) (allowArray : Bool) : Option (List Char) :=
  match (candidatesFor '{' cs).find? jsonValidL with
  | some x => some x
  | none => if allowArray then (candidatesFor '[' cs).find? jsonValidL else none

/-! ## Markdown code-fence stripping (the regex in `preprocessJsonResponse`)

The source runs `/(three backticks)(?:json)?\s*\n?([\s\S]*?)\n?(three
backticks)/.exec(jsonText)` and, when it matches, replaces the working text
with the first capture group (trimmed).  The matcher below reproduces
JavaScript left-to-right scanning with the regex's own backtracking order:
`(?:json)?` greedy, `\s*` greedy, `\n?` greedy, the capture group lazy. -/

def tickChar : Char := Char.ofNat 96

def ticks3 : List Char := [tickChar, tickChar, tickChar]

def jsonWord : List Char := ['j', 's', 'o', 'n']

/-- Can the lazy capture group stop here: an optional `\n` then three
backticks. -/
def fenceTail (cs : List Char) : Bool :=
  leadsWith ticks3 cs ||
    (match cs with
     | c :: r => c = '\n' && leadsWith ticks3 r
     | [] => false)

/-- Grow the lazy capture group until `fenceTail` allows the match to close;
returns the captured characters. -/
def groupScan (acc : List Char) : List Char → Option (List Char)
  | [] => if fenceTail [] then some acc.reverse else none
  | c :: rs =>
    if fenceTail (c :: rs) then some acc.reverse
    else groupScan (c :: acc) rs

/-- `\n?` alternatives at a position, in greedy order (with the newline
first). -/
def nlAlternatives (cs : List Char) : List (List Char) :=
  match cs with
  | c :: r => if c = '\n' then [r, cs] else [cs]
  | [] => [[]]

def tryFenceFrom (cs : List Char) : Option (List Char) :=
  firstSome ((nlAlternatives cs).map (fun r => groupScan [] r))

/-- `\s*` alternatives: consume `k` whitespace characters for `k` from the
maximal run down to zero (greedy with backtracking). -/
def wsAlternatives (cs : List Char) : List (List Char) :=
  ((List.range ((cs.takeWhile isJsWs).length + 1)).reverse).map (fun k => cs.drop k)

def fenceAfterTicks (cs : List Char) : Option (List Char) :=
  match (if leadsWith jsonWord cs
         then firstSome ((wsAlternatives (cs.drop 4)).map tryFenceFrom)
         else none) with
  | some g => some g
  | none => firstSome ((wsAlternatives cs).map tryFenceFrom)

/-- Attempt the fence regex anchored at the current position. -/
def fenceMatchAt (cs : List Char) : Option (List Char) :=
  if leadsWith ticks3 cs then fenceAfterTicks (cs.drop 3) else none

/-- `regex.exec`: leftmost match wins. -/
def fenceScan : List Char → Option (List Char)
  | [] => none
  | c :: rs =>
    match fenceMatchAt (c :: rs) with
    | some g => some g
    | none => fenceScan rs

/-- The fence-stripping step of `preprocessJsonResponse`: trim, then replace
the whole working text with the first fence match's trimmed capture group. -/
def codeFenceStep (cs : List Char) : List Char :=
  let t := trimL cs
  match fenceScan t with
  | some g => trimL g
  | none => t

/-- `preprocessJsonResponse(text, allowArray)` on character lists. -/
def preprocessJsonResponseL (cs : List Char) (allowArray : Bool) : List Char :=
  let jsonText := codeFenceStep cs
  match extractBalancedJson jsonText allowArray with
  | some e => e
  | none => jsonText

/-- `preprocessJsonResponse` at the string boundary. -/
def preprocessJsonResponse (text : String) (allowArray : Bool) : String :=
  String.mk (preprocessJsonResponseL text.data allowArray)

/-! ## Observation JSON parser (`parseObservationsJson`) -/

/-- The domain record produced by `parseObservationsJson`. -/
structure ParsedObservation where
  type : String
  title : Option String
  subtitle : Option String
  facts : List String
  narrative : Option String
  concepts : List String
  files_read : List String
  files_modified : List String
deriving DecidableEq

/-- JS `String.prototype.trim` at the string boundary. -/
def jsTrimS (s : String) : String := String.mk (trimL s.data)

/-- Coerce an optional JSON value to a string array by keeping only string
entries (`Array.isArray(x) ? x.filter(typeof string) : []`). -/
def strArray (v : Option JValue) : List String :=
  match v with
  | some (JValue.arr xs) =>
    xs.filterMap (fun x => match x with | JValue.str s => some s | _ => none)
  | _ => []

/-- `typeof x === 'string' ? x : null`. -/
def optString (v : Option JValue) : Option String :=
  match v with
  | some (JValue.str s) => some s
  | _ => none

/-- Is the value a non-null non-array object (`typeof data === 'object' &&
data !== null && !Array.isArray(data)`)? -/
def isPlainObj (v : JValue) : Bool :=
  match v with
  | JValue.obj _ => true
  | _ => false

/-- `typeof raw === 'object' && raw !== null` (arrays included). -/
def isObjLike (v : JValue) : Bool :=
  match v with
  | JValue.obj _ => true
  | JValue.arr _ => true
  | _ => false

/-- The raw observation list accepted by `parseObservationsJson`: a bare
array, an `observations` array field, or a single object with a truthy
`type` field.  `data` being JSON `null` makes the source's `data.observations`
access throw into the surrounding catch, i.e. yield no observations. -/
def rawObservationsOf (data : JValue) : Option (List JValue) :=
  match data with
  | JValue.arr xs => some xs
  | JValue.null => none
  | _ =>
    match jsGet data "observations" with
    | some (JValue.arr xs) => some xs
    | _ =>
      match jsGet data "type" with
      | some t => if jsTruthy t then some [data] else none
      | none => none

/-- Per-element validation and coercion: resolve `type` against the whitelist
(first entry is the fallback), coerce the string arrays, and strip the
resolved type out of `concepts`.  The whitelist is the caller-supplied
`mode.observation_types` ids (a singleton read in the source); it is assumed
non-empty, matching `validTypes[0]` being defined. -/
def observationOf (validTypes : List String) (raw : JValue) : Option ParsedObservation :=
  if isObjLike raw then
    let fallbackType := validTypes.headD ""
    let finalType :=
      match jsGet raw "type" with
      | some (JValue.str s) =>
        if validTypes.contains (jsTrimS s) then jsTrimS s else fallbackType
      | _ => fallbackType
    let files_read := strArray (jsGet raw "files_read")
    let files_modified := strArray (jsGet raw "files_modified")
    let concepts := strArray (jsGet raw "concepts")
    let cleanedConcepts := concepts.filter (fun c => c ≠ finalType)
    some {
      type := finalType
      title := optString (jsGet raw "title")
      subtitle := optString (jsGet raw "subtitle")
      facts := strArray (jsGet raw "facts")
      narrative := optString (jsGet raw "narrative")
      concepts := cleanedConcepts
      files_read := files_read
      files_modified := files_modified
    }
  else none

/-- `obj.skip === true` (strict equality with the boolean `true`). -/
def isSkipSentinel (data : JValue) : Bool :=
  match jsGet data "skip" with
  | some (JValue.bool true) => true
  | _ => false

/-- `parseObservationsJson(text)`: never throws — every JSON parse failure and
every skip path degrades to the empty list. -/
def parseObservationsJson (validTypes : List String) (text : String) :
    List ParsedObservation :=
  let jsonText := preprocessJsonResponseL text.data true
  let trimmed := trimL jsonText
  if !(hasChar trimmed '{') && !(hasChar trimmed '[') then []
  else
    match jsonParseL trimmed with
    | none => []
    | some data =>
      if isPlainObj data && isSkipSentinel data then []
      else
        match rawObservationsOf data with
        | none => []
        | some raws => raws.filterMap (observationOf validTypes)

/-! ## SSE frame decoders (`parseGeminiSseStream` / `parseOpenAISseStream`)

Both decoders split the response on `/\r?\n/`, buffer stripped `data:` line
fragments, flush on blank lines and at end of input, join fragments with a
newline, skip `[DONE]`, ignore unparsable events, and fall back to parsing
the entire response as one JSON document when nothing usable was streamed. -/

def dataMark : List Char := ['d', 'a', 't', 'a', ':']

/-- `line.slice(5).replace(/^\s*/, '')`: drop the `data:` marker and all
immediately following whitespace. -/
def stripDataL (t : List Char) : List Char :=
  (t.drop 5).dropWhile isJsWs

/-- The claim's stripping rule, for comparison: the `data:` prefix plus
exactly one following space (if present). -/
def stripDataOneSpace (t : List Char) : List Char :=
  match t.drop 5 with
  | ' ' :: rest => rest
  | other => other

def doneMark : List Char := ['[', 'D', 'O', 'N', 'E', ']']

/-- OpenAI decoder state: accumulated content and the last truthy
`usage.total_tokens` value. -/
structure OSt where
  content : List Char
  tokens : Option JValue

def jsOpenAIDelta (data : JValue) : Option JValue :=
  (((jsGet data "choices").bind jsIdx0).bind (fun c => jsGet c "delta")).bind
    (fun d => jsGet d "content")

def jsOpenAIMsgContent (data : JValue) : Option JValue :=
  (((jsGet data "choices").bind jsIdx0).bind (fun c => jsGet c "message")).bind
    (fun m => jsGet m "content")

def jsOpenAITotalTokens (data : JValue) : Option JValue :=
  (jsGet data "usage").bind (fun u => jsGet u "total_tokens")

/-- Field extraction for one parsed OpenAI SSE event: accumulate a truthy
`choices[0].delta.content`, record a truthy `usage.total_tokens`. -/
def oApply (st : OSt) (data : JValue) : OSt :=
  let st1 :=
    match jsOpenAIDelta data with
    | some v => if jsTruthy v then { st with content := st.content ++ jsToStr v } else st
    | none => st
  match jsOpenAITotalTokens data with
  | some v => if jsTruthy v then { st1 with tokens := some v } else st1
  | none => st1

/-- `flushEvent` of the OpenAI decoder: join the buffered fragments with a
newline, trim, skip empty payloads and `[DONE]`, silently ignore events whose
payload is not valid JSON. -/
def oFlush (st : OSt) (buf : List (List Char)) : OSt :=
  if buf = [] then st
  else
    let payload := trimL (joinNL buf)
    if payload = [] || payload = doneMark then st
    else
      match jsonParseL payload with
      | none => st
      | some data => oApply st data

/-- The line loop of the OpenAI decoder: blank line flushes, `data:` lines are
stripped and buffered, other lines are ignored; final flush at end of input. -/
def oLoop (st : OSt) (buf : List (List Char)) : List (List Char) → OSt
  | [] => oFlush st buf
  | l :: ls =>
    let t := trimEndL l
    if t = [] then oLoop (oFlush st buf) [] ls
    else if leadsWith dataMark t then oLoop st (buf ++ [stripDataL t]) ls
    else oLoop st buf ls

/-- The OpenAI decoder's non-streaming fallback (guarded in the source by the
trimmed text starting with a brace). -/
def oFallback (st : OSt) (tr : List Char) : OSt :=
  if leadsWith ['{'] tr then
    match jsonParseL tr with
    | none => st
    | some data =>
      let newContent :=
        match jsOpenAIMsgContent data with
        | some v => if jsTruthy v then jsToStr v else []
        | none => []
      let st1 := { st with content := newContent }
      match jsOpenAITotalTokens data with
      | some v => if jsTruthy v then { st1 with tokens := some v } else st1
      | none => st1
  else st

structure OpenAIStreamResult where
  content : String
  tokensUsed : Option JValue

/-- `parseOpenAISseStream(responseText)`. -/
def parseOpenAISseStream (text : String) : OpenAIStreamResult :=
  let st := oLoop ⟨[], none⟩ [] (splitLinesL text.data)
  let st2 := if st.content = [] then oFallback st (trimL text.data) else st
  ⟨String.mk st2.content, st2.tokens⟩

/-- Gemini decoder state: collected raw parts and the last truthy
`usageMetadata.totalTokenCount` value. -/
structure GSt where
  parts : List JValue
  tokens : Option JValue

def jsGeminiParts (data : JValue) : Option JValue :=
  (((jsGet data "candidates").bind jsIdx0).bind (fun c => jsGet c "content")).bind
    (fun c => jsGet c "parts")

def jsGeminiTokens (data : JValue) : Option JValue :=
  (jsGet data "usageMetadata").bind (fun u => jsGet u "totalTokenCount")

/-- `allParts.concat(parts)`: arrays are spread, other values appended whole. -/
def jsConcat (v : JValue) : List JValue :=
  match v with
  | JValue.arr xs => xs
  | _ => [v]

/-- Field extraction for one parsed Gemini SSE event (also the body of the
Gemini non-streaming fallback, which the source repeats verbatim). -/
def gApply (st : GSt) (data : JValue) : GSt :=
  let st1 :=
    match jsGeminiParts data with
    | some v => if jsTruthy v then { st with parts := st.parts ++ jsConcat v } else st
    | none => st
  match jsGeminiTokens data with
  | some v => if jsTruthy v then { st1 with tokens := some v } else st1
  | none => st1

/-- `flushEvent` of the Gemini decoder. -/
def gFlush (st : GSt) (buf : List (List Char)) : GSt :=
  if buf = [] then st
  else
    let payload := trimL (joinNL buf)
    if payload = [] || payload = doneMark then st
    else
      match jsonParseL payload with
      | none => st
      | some data => gApply st data

/-- The line loop of the Gemini decoder. -/
def gLoop (st : GSt) (buf : List (List Char)) : List (List Char) → GSt
  | [] => gFlush st buf
  | l :: ls =>
    let t := trimEndL l
    if t = [] then gLoop (gFlush st buf) [] ls
    else if leadsWith dataMark t then gLoop st (buf ++ [stripDataL t]) ls
    else gLoop st buf ls

/-- The Gemini decoder's non-streaming fallback. -/
def gFallback (st : GSt) (tr : List Char) : GSt :=
  if leadsWith ['{'] tr then
    match jsonParseL tr with
    | none => st
    | some data => gApply st data
  else st

structure GeminiStreamResult where
  parts : List JValue
  tokensUsed : Option JValue

/-- `parseGeminiSseStream(responseText)`. -/
def parseGeminiSseStream (text : String) : GeminiStreamResult :=
  let st := gLoop ⟨[], none⟩ [] (splitLinesL text.data)
  let st2 := if st.parts.isEmpty then gFallback st (trimL text.data) else st
  ⟨st2.parts, st2.tokens⟩

/-! ### Claim-side SSE decoders

The claim describes the same decoding as: split the input into SSE events (a
blank line flushes, a final flush happens at end of input, only stripped
`data:` lines contribute fragments), decode each event independently, and if
no usable fragment was extracted attempt to parse the entire original text as
a single JSON document (with no precondition on its first character). -/

/-- Split the lines into per-event fragment groups. -/
def sseEventsSpec (buf : List (List Char)) : List (List Char) → List (List (List Char))
  | [] => [buf]
  | l :: ls =>
    let t := trimEndL l
    if t = [] then buf :: sseEventsSpec [] ls
    else if leadsWith dataMark t then sseEventsSpec (buf ++ [stripDataL t]) ls
    else sseEventsSpec buf ls

/-- Claim-side OpenAI fallback: parse the whole text, no brace guard. -/
def oFallbackSpec (st : OSt) (tr : List Char) : OSt :=
  match jsonParseL tr with
  | none => st
  | some data =>
    let newContent :=
      match jsOpenAIMsgContent data with
      | some v => if jsTruthy v then jsToStr v else []
      | none => []
    let st1 := { st with content := newContent }
    match jsOpenAITotalTokens data with
    | some v => if jsTruthy v then { st1 with tokens := some v } else st1
    | none => st1

/-- Claim-side Gemini fallback: parse the whole text, no brace guard. -/
def gFallbackSpec (st : GSt) (tr : List Char) : GSt :=
  match jsonParseL tr with
  | none => st
  | some data => gApply st data

/-- Claim-side OpenAI decoder. -/
def parseOpenAISseStreamSpec (text : String) : OpenAIStreamResult :=
  let st := (sseEventsSpec [] (splitLinesL text.data)).foldl oFlush ⟨[], none⟩
  let st2 := if st.content = [] then oFallbackSpec st (trimL text.data) else st
  ⟨String.mk st2.content, st2.tokens⟩

/-- Claim-side Gemini decoder. -/
def parseGeminiSseStreamSpec (text : String) : GeminiStreamResult :=
  let st := (sseEventsSpec [] (splitLinesL text.data)).foldl gFlush ⟨[], none⟩
  let st2 := if st.parts.isEmpty then gFallbackSpec st (trimL text.data) else st
  ⟨st2.parts, st2.tokens⟩

/-! ## URL builder (`buildApiUrl`) -/

inductive CustomProtocol where
  | openai : CustomProtocol
  | gemini : CustomProtocol
deriving DecidableEq

/-- `baseUrl.replace(/\/+$/, '')`. -/
def stripTrailSlashes (cs : List Char) : List Char :=
  (cs.reverse.dropWhile (fun c => c = '/')).reverse

/-- `s.replace(/pat$/i, '')`: remove one case-insensitive occurrence of `pat`
at the end, if present. -/
def stripSuffixCI (pat cs : List Char) : List Char :=
  if trailsWithCI pat cs then cs.take (cs.length - pat.length) else cs

/-- `model.replace(/^models\//, '')`. -/
def stripModelsLead (m : List Char) : List Char :=
  if leadsWith ['m', 'o', 'd', 'e', 'l', 's', '/'] m then m.drop 7 else m

def v1betaModelsSeg : List Char := "/v1beta/models".data
def v1betaSeg : List Char := "/v1beta".data
def chatCompletionsSeg : List Char := "/chat/completions".data
def v1Seg : List Char := "/v1".data

/-- `buildApiUrl(baseUrl, protocol, model, streaming)`. -/
def buildApiUrl (baseUrl : String) (protocol : CustomProtocol) (model : String)
    (streaming : Bool) : String :=
  let clean := stripTrailSlashes baseUrl.data
  match protocol with
  | CustomProtocol.gemini =>
    let normalizedBase := stripSuffixCI v1betaSeg (stripSuffixCI v1betaModelsSeg clean)
    let cleanModel := stripModelsLead model.data
    let action := if streaming then "streamGenerateContent".data else "generateContent".data
    let sseParam := if streaming then "?alt=sse".data else []
    String.mk (normalizedBase ++ v1betaModelsSeg ++ '/' :: cleanModel ++ ':' :: action ++ sseParam)
  | CustomProtocol.openai =>
    if trailsWith chatCompletionsSeg clean then String.mk clean
    else if trailsWith v1Seg clean then String.mk (clean ++ chatCompletionsSeg)
    else String.mk (clean ++ v1Seg ++ chatCompletionsSeg)

/-! ## History truncation (`truncateHistory`) -/

inductive Role where
  | user : Role
  | assistant : Role
deriving DecidableEq

structure ConversationMessage where
  role : Role
  content : String
deriving DecidableEq

/-- The configuration fields consumed by the claims under verification.  The
limits keep the source's numeric type (`<= 0` disables them). -/
structure CustomAgentConfig where
  maxContextMessages : Int
  maxTokens : Int
  firstTokenTimeoutSeconds : Int
  totalTimeoutSeconds : Int
deriving DecidableEq

/-- `estimateTokens`: `Math.ceil(text.length / 4)` (UTF-16 length; code-point
length coincides on the inputs the system sees). -/
def estimateTokens (text : String) : Nat :=
  (text.length + 3) / 4

def isUserMsg (m : ConversationMessage) : Bool :=
  match m.role with
  | Role.user => true
  | Role.assistant => false

def totalTokensOf (history : List ConversationMessage) : Nat :=
  (history.map (fun m => estimateTokens m.content)).sum

/-- The reverse greedy window loop: walk the reversed history (newest first),
including a message while neither active limit would be exceeded; stop at the
first message that would exceed one (`truncated.length` is `cnt`, the running
token sum is `toks`). -/
def takeWindow (maxC maxT : Int) : List ConversationMessage → Nat → Nat →
    List ConversationMessage
  | [], _, _ => []
  | m :: rest, cnt, toks =>
    let mt := estimateTokens m.content
    if (maxC > 0 && (cnt : Int) ≥ maxC) || (maxT > 0 && ((toks + mt : Nat) : Int) > maxT)
    then []
    else m :: takeWindow maxC maxT rest (cnt + 1) (toks + mt)

/-- The suffix window kept by the sliding-window pass (most recent messages,
in original order). -/
def slidingWindow (maxC maxT : Int) (history : List ConversationMessage) :
    List ConversationMessage :=
  (takeWindow maxC maxT history.reverse 0 0).reverse

/-- `history.findIndex(msg => msg.role === 'user')` on the window. -/
def findIdxUser : List ConversationMessage → Option Nat
  | [] => none
  | m :: rest =>
    if isUserMsg m then some 0 else (findIdxUser rest).map (fun i => i + 1)

/-- The fallback history: one user message holding the content of the most
recent user message of the original history (`latestUserMessage?.content ||
''`). -/
def fallbackHistory (history : List ConversationMessage) : List ConversationMessage :=
  [{ role := Role.user,
     content := match history.reverse.find? isUserMsg with
                | some m => m.content
                | none => "" }]

/-- The user-first postprocessing of `truncateHistory`: a non-user-first
window is spliced at the first user message (the source splices for index > 0
and a non-user head makes index 0 impossible); a window with no user message,
or an empty window, falls back to the latest original user message. -/
def truncPost (history window : List ConversationMessage) : List ConversationMessage :=
  match window with
  | [] => fallbackHistory history
  | m :: _ =>
    if isUserMsg m then window
    else
      match findIdxUser window with
      | none => fallbackHistory history
      | some i => window.drop i

/-- `truncateHistory(history, config)`. -/
def truncateHistory (history : List ConversationMessage) (config : CustomAgentConfig) :
    List ConversationMessage :=
  let maxC := config.maxContextMessages
  let maxT := config.maxTokens
  if maxC ≤ 0 ∧ maxT ≤ 0 then history
  else
    let withinMessageLimit := maxC ≤ 0 ∨ (history.length : Int) ≤ maxC
    let withinTokenLimit := maxT ≤ 0 ∨ (totalTokensOf history : Int) ≤ maxT
    if withinMessageLimit ∧ withinTokenLimit then history
    else truncPost history (slidingWindow maxC maxT history)

/-- Claim-side formulation of `truncateHistory`: identical limit gates and
greedy suffix window; then drop leading non-user messages, and fall back to
the most recent original user message when the window is empty or user-free. -/
def truncateHistorySpec (history : List ConversationMessage) (config : CustomAgentConfig) :
    List ConversationMessage :=
  let maxC := config.maxContextMessages
  let maxT := config.maxTokens
  if maxC ≤ 0 ∧ maxT ≤ 0 then history
  else
    if (maxC ≤ 0 ∨ (history.length : Int) ≤ maxC) ∧
       (maxT ≤ 0 ∨ (totalTokensOf history : Int) ≤ maxT) then history
    else
      let window := slidingWindow maxC maxT history
      let userFirst := window.dropWhile (fun m => !isUserMsg m)
      if userFirst = [] then fallbackHistory history else userFirst

/-- Did `truncateHistory` take its truncating path (at least one limit active
and the history beyond the active limits)? -/
def truncationTriggered (history : List ConversationMessage) (config : CustomAgentConfig) :
    Prop :=
  ¬(config.maxContextMessages ≤ 0 ∧ config.maxTokens ≤ 0) ∧
  ¬((config.maxContextMessages ≤ 0 ∨ (history.length : Int) ≤ config.maxContextMessages) ∧
    (config.maxTokens ≤ 0 ∨ (totalTokensOf history : Int) ≤ config.maxTokens))

/-! ## Bounded-retry fetcher (`fetchWithTimeoutAndRetry`)

The network is abstracted by an environment giving, per attempt index, the
outcome of the timed fetch, plus the outcome of a plain (timer-free) fetch.
The wrapper's control flow is embedded exactly: retry only on `TimeoutError`,
propagate anything else, raise the last timeout after `maxRetries` attempts,
and degrade to a single plain fetch when both timeouts are disabled. -/

structure FetchResult where
  ok : Bool
  status : Nat
  body : String
deriving DecidableEq

/-- The outcome of one `fetchWithTimeout` call. -/
inductive FetchOutcome where
  | success : FetchResult → FetchOutcome
  | timeoutErr : String → FetchOutcome
  | otherErr : String → FetchOutcome
deriving DecidableEq

/-- Failures surfaced by the retry wrapper. -/
inductive FetchFailure where
  | timeoutFail : String → FetchFailure
  | otherFail : String → FetchFailure
deriving DecidableEq

/-- The environment: `timed i` is the outcome of the `i`-th timed fetch
(timers armed), `plain` the outcome of a plain `fetch` with no timers. -/
structure FetchEnv where
  timed : Nat → FetchOutcome
  plain : Except String FetchResult

/-- The retry loop (`for attempt = 1..maxRetries`): returns the result or
failure together with the number of timed fetch calls performed. -/
def retryGo (env : FetchEnv) (lastError : Option String) (idx : Nat) :
    Nat → Except FetchFailure FetchResult × Nat
  | 0 =>
    (Except.error (FetchFailure.timeoutFail
      (match lastError with
       | some m => m
       | none => "Request timeout after max retries")), idx)
  | Nat.succ attemptsLeft =>
    match env.timed idx with
    | FetchOutcome.success r => (Except.ok r, idx + 1)
    | FetchOutcome.timeoutErr m => retryGo env (some m) (idx + 1) attemptsLeft
    | FetchOutcome.otherErr m => (Except.error (FetchFailure.otherFail m), idx + 1)

/-- `fetchWithTimeoutAndRetry(url, options, config, maxRetries)`: result,
number of timed fetches, number of plain fetches. -/
def fetchWithTimeoutAndRetry (env : FetchEnv) (config : CustomAgentConfig)
    (maxRetries : Nat) : Except FetchFailure FetchResult × Nat × Nat :=
  let firstTokenTimeoutMs : Int :=
    if config.firstTokenTimeoutSeconds > 0 then config.firstTokenTimeoutSeconds * 1000 else 0
  let totalTimeoutMs : Int :=
    if config.totalTimeoutSeconds > 0 then config.totalTimeoutSeconds * 1000 else 0
  if firstTokenTimeoutMs = 0 ∧ totalTimeoutMs = 0 then
    (match env.plain with
     | Except.ok r => (Except.ok r, 0, 1)
     | Except.error m => (Except.error (FetchFailure.otherFail m), 0, 1))
  else
    let r := retryGo env none 0 maxRetries
    (r.1, r.2, 0)

/-- The default retry bound of the source (`maxRetries: number = 3`). -/
def defaultMaxRetries : Nat := 3

/-! ## OpenAI non-streaming response handling (`queryOpenAIJsonMultiTurn`)

After a successful fetch the source throws on a non-ok status, otherwise
JSON-parses the body and reads `choices[0].message.content || ''` — an
embedded `{error:{code,message}}` object at status 200 falls through to an
empty usable content instead of raising. -/

structure OpenAIQueryOut where
  content : String
  tokensUsed : Option JValue

/-- The response-handling tail of `queryOpenAIJsonMultiTurn` (after
`fetchWithTimeoutAndRetry` returned `result`). -/
def openAIHandleResult (result : FetchResult) : Except String OpenAIQueryOut :=
  if !result.ok then
    Except.error ("Custom/OpenAI API error: " ++ toString result.status ++ " - " ++ result.body)
  else
    match jsonParseL result.body.data with
    | none => Except.error "SyntaxError: JSON.parse failed"
    | some data =>
      let content :=
        match jsOpenAIMsgContent data with
        | some v => if jsTruthy v then jsToStr v else []
        | none => []
      Except.ok ⟨String.mk content, jsOpenAITotalTokens data⟩

/-! ## Concrete inputs referenced by the theorems -/

/-- An OpenAI-shape streaming body whose only event is a provider-embedded
error object, delivered with HTTP status 200. -/
def openAIErrorSse : String :=
  "data: \x7b\"error\":\x7b\"code\":\"rate_limit\",\"message\":\"Too many requests\"\x7d\x7d\n\ndata: [DONE]\n"

/-- The same embedded error object as a non-streaming body. -/
def openAIErrorBody : String :=
  "\x7b\"error\":\x7b\"code\":\"rate_limit\",\"message\":\"Too many requests\"\x7d\x7d"

/-- The claim-side canonical Gemini URL: exactly one
`/v1beta/models/(model):(action)` segment, `?alt=sse` only when streaming. -/
def geminiCanonical (host : List Char) (model : String) (streaming : Bool) : String :=
  String.mk (host ++ v1betaModelsSeg ++ '/' :: stripModelsLead model.data ++ ':' ::
    (if streaming then "streamGenerateContent".data else "generateContent".data) ++
    (if streaming then "?alt=sse".data else []))

/-! # Theorems -/

/-! ## C1 — embedded provider error at HTTP 200 (code does not raise) -/

/-- C1: the spec and the repository's own test expect a 200-status body whose
top-level `error:\x7bcode,message\x7d` object is surfaced as the error
`"rate_limit - Too many requests"`.  The embedded source instead decodes the
streaming body to an empty usable content with no error, and the non-streaming
handler returns `ok` with empty content: the error is swallowed.  This
evaluates the embedded code at the failing input, witnessing the divergence
(the claim itself is the correct intended behaviour, hence a code bug). -/
theorem c1_embedded_error_ignored :
    parseOpenAISseStream openAIErrorSse = ⟨"", none⟩ ∧
    openAIHandleResult ⟨true, 200, openAIErrorBody⟩ = Except.ok ⟨"", none⟩ := by
  constructor <;> rfl

/-! ## Counterexamples for corrected claims -/

/-- C4 counterexample: the decoders strip `data:` plus all following
whitespace (`/^\s*/`), not exactly one space; for the event
`["data: \x7b", "data:   \"a\":1\x7d"]` the payload handed to `JSON.parse`
under the code's rule differs from the payload the claim describes. -/
theorem c4_counterexample :
    trimL (joinNL (["data: \x7b".data, "data:   \"a\":1\x7d".data].map
        (fun l => stripDataL (trimEndL l)))) ≠
    trimL (joinNL (["data: \x7b".data, "data:   \"a\":1\x7d".data].map
        (fun l => stripDataOneSpace (trimEndL l)))) := by
  decide

/-- C8 counterexample: a fenced block strictly inside surrounding non-fence
text.  The fence-stripping step replaces the whole working text with the
fence's content, discarding the surrounding text (the claim says the step
only fires when the entire trimmed text is wrapped and never discards
surrounding text). -/
theorem c8_counterexample :
    codeFenceStep "a \x60\x60\x60json\n\x7b\"k\":1\x7d\n\x60\x60\x60 b".data
      = "\x7b\"k\":1\x7d".data ∧
    codeFenceStep "a \x60\x60\x60json\n\x7b\"k\":1\x7d\n\x60\x60\x60 b".data
      ≠ trimL "a \x60\x60\x60json\n\x7b\"k\":1\x7d\n\x60\x60\x60 b".data := by
  constructor
  · rfl
  · decide

/-- C9 counterexample: feeding the fully-qualified Gemini endpoint back
through `buildApiUrl` appends a second `/v1beta/models/...` segment, so the
builder is not idempotent on its own Gemini output. -/
theorem c9_counterexample :
    buildApiUrl (buildApiUrl "https://h" CustomProtocol.gemini "m" false)
        CustomProtocol.gemini "m" false
      ≠ buildApiUrl "https://h" CustomProtocol.gemini "m" false := by
  decide

/-- C10 counterexample: on an empty history no limit is ever exceeded, so
`truncateHistory` returns the input unchanged — the empty list — refuting
"the result of truncateHistory is never an empty list" as universally
stated. -/
theorem c10_counterexample :
    truncateHistory [] ⟨5, 5, 0, 0⟩ = [] := by
  rfl

/-! ## C3 — balanced-JSON extractor -/

/-- The scanning loop is the first parse-valid entry of the left-to-right
candidate list. -/
theorem scanFor_eq_find_candidates (c0 : Char) :
    ∀ cs : List Char, scanFor c0 cs = (candidatesFor c0 cs).find? jsonValidL := by
  intro cs
  induction cs with
  | nil => rfl
  | cons c rest ih =>
    by_cases h : c = c0
    · unfold scanFor candidatesFor
      rw [if_pos h, if_pos h]
      cases hs : spanAt (c :: rest) with
      | none => exact ih
      | some cand =>
        by_cases hv : jsonValidL cand = true
        · simp [List.find?, hv]
        · simp only [Bool.not_eq_true] at hv
          simp [List.find?, hv, ih]
    · unfold scanFor candidatesFor
      rw [if_neg h, if_neg h]
      exact ih

/-- C3: the extractor equals its claim-side formulation — the first balanced,
string-aware span (object-root candidate start indices scanned left to right
before any array-root candidates) whose content `JSON.parse`s; a mismatched
close bracket merely fails the candidate (`spanAt` returns `none`, nothing
throws); and when no candidate parses, the preprocessing step returns its
scanned text unchanged — which is exactly the original trimmed text whenever
the fence regex did not fire. -/
theorem c3_extractBalancedJson_spec (cs : List Char) (allowArray : Bool) :
    extractBalancedJson cs allowArray = specExtractBalancedJson cs allowArray ∧
    (extractBalancedJson (codeFenceStep cs) allowArray = none →
      preprocessJsonResponseL cs allowArray = codeFenceStep cs) ∧
    (fenceScan (trimL cs) = none → codeFenceStep cs = trimL cs) := by
  refine ⟨?_, ?_, ?_⟩
  · unfold extractBalancedJson specExtractBalancedJson
    rw [scanFor_eq_find_candidates, scanFor_eq_find_candidates]
  · intro h
    simp only [preprocessJsonResponseL, h]
  · intro h
    simp only [codeFenceStep, h]

/-- C3 witness: a concrete prose input with no fence and no candidate — the
preprocessing step returns the trimmed text unchanged. -/
theorem c3_witness :
    preprocessJsonResponseL " no json here ".data true
        = codeFenceStep " no json here ".data ∧
    codeFenceStep " no json here ".data = trimL " no json here ".data ∧
    extractBalancedJson " no json here ".data true
        = specExtractBalancedJson " no json here ".data true := by
  refine ⟨(c3_extractBalancedJson_spec " no json here ".data true).2.1 (by decide),
          (c3_extractBalancedJson_spec " no json here ".data true).2.2 (by decide),
          (c3_extractBalancedJson_spec " no json here ".data true).1⟩

/-! ## C2 / C10 — history truncation -/

/-- Dropping leading non-user messages equals splicing at the first user
index (and empties the list when no user message exists). -/
theorem dropWhile_user_eq (l : List ConversationMessage) :
    l.dropWhile (fun m => !isUserMsg m) =
      (match findIdxUser l with
       | some i => l.drop i
       | none => []) := by
  induction l with
  | nil => rfl
  | cons m rest ih =>
    by_cases hu : isUserMsg m = true
    · simp [List.dropWhile_cons, findIdxUser, hu]
    · have hu' : isUserMsg m = false := by
        exact Bool.not_eq_true _ ▸ (by simpa using hu)
      rw [List.dropWhile_cons]
      simp only [hu', Bool.not_false, if_true, findIdxUser, hu', Bool.false_eq_true,
        if_false]
      rw [ih]
      cases hf : findIdxUser rest with
      | none => simp
      | some i => simp [List.drop_succ_cons]

theorem findIdxUser_lt_length :
    ∀ (l : List ConversationMessage) (i : Nat), findIdxUser l = some i → i < l.length := by
  intro l
  induction l with
  | nil => intro i h; simp [findIdxUser] at h
  | cons m rest ih =>
    intro i h
    by_cases hu : isUserMsg m = true
    · simp [findIdxUser, hu] at h
      simp only [List.length_cons]
      omega
    · have hu' : isUserMsg m = false := by simpa using hu
      simp [findIdxUser, hu'] at h
      obtain ⟨j, hj, rfl⟩ := h
      have := ih j hj
      simp only [List.length_cons]
      omega

/-- The user-first postprocessing of the source equals the claim's
"drop leading non-user messages, fall back when empty or user-free". -/
theorem truncPost_eq_spec (history w : List ConversationMessage) :
    truncPost history w =
      (if w.dropWhile (fun m => !isUserMsg m) = [] then fallbackHistory history
       else w.dropWhile (fun m => !isUserMsg m)) := by
  cases w with
  | nil => simp [truncPost, List.dropWhile_nil]
  | cons m rest =>
    by_cases hu : isUserMsg m = true
    · simp [truncPost, hu, List.dropWhile_cons]
    · have hu' : isUserMsg m = false := by simpa using hu
      rw [dropWhile_user_eq]
      cases hf : findIdxUser (m :: rest) with
      | none => simp [truncPost, hu', hf]
      | some i =>
        have hlt := findIdxUser_lt_length _ _ hf
        have hne : (m :: rest).drop i ≠ [] := by
          intro hcon
          rw [List.drop_eq_nil_iff] at hcon
          omega
        simp [truncPost, hu', hf, hne]

/-- C2: `truncateHistory` equals the claim's description — identity when both
limits are disabled or when the history is within every active limit; else
the greedy newest-to-oldest suffix window (count kept within
`maxContextMessages` when positive, `ceil(length/4)` token sum kept within
`maxTokens` when positive), with leading non-user messages dropped, falling
back to a single message carrying the content of the most recent user message
of the original history (empty content when it has none), regardless of that
message's token cost. -/
theorem c2_truncateHistory_spec (history : List ConversationMessage)
    (config : CustomAgentConfig) :
    truncateHistory history config = truncateHistorySpec history config := by
  by_cases h1 : config.maxContextMessages ≤ 0 ∧ config.maxTokens ≤ 0
  · simp [truncateHistory, truncateHistorySpec, h1]
  · by_cases h2 : (config.maxContextMessages ≤ 0 ∨
        (history.length : Int) ≤ config.maxContextMessages) ∧
        (config.maxTokens ≤ 0 ∨ (totalTokensOf history : Int) ≤ config.maxTokens)
    · simp [truncateHistory, truncateHistorySpec, h1, h2]
    · simp only [truncateHistory, truncateHistorySpec, if_neg h1, if_neg h2]
      exact truncPost_eq_spec history _

/-- Every message of the greedy window comes from the scanned list. -/
theorem takeWindow_mem (maxC maxT : Int) :
    ∀ (l : List ConversationMessage) (cnt toks : Nat) (m : ConversationMessage),
      m ∈ takeWindow maxC maxT l cnt toks → m ∈ l := by
  intro l
  induction l with
  | nil => intro cnt toks m h; simp [takeWindow] at h
  | cons x rest ih =>
    intro cnt toks m h
    rw [takeWindow] at h
    by_cases hc : (maxC > 0 && ((cnt : Int) ≥ maxC)) ||
        (maxT > 0 && ((toks + estimateTokens x.content : Nat) : Int) > maxT)
    · rw [if_pos hc] at h; simp at h
    · rw [if_neg hc] at h
      rcases List.mem_cons.mp h with h | h
      · exact List.mem_cons.mpr (Or.inl h)
      · exact List.mem_cons.mpr (Or.inr (ih _ _ _ h))

theorem findIdxUser_none_of_all (l : List ConversationMessage)
    (h : ∀ m ∈ l, isUserMsg m = false) : findIdxUser l = none := by
  induction l with
  | nil => rfl
  | cons m rest ih =>
    have hm := h m (List.mem_cons_self m rest)
    simp [findIdxUser, hm]
    exact ih (fun x hx => h x (List.mem_cons_of_mem m hx))

/-- Splicing at the first user index exposes a user-headed suffix. -/
theorem findIdxUser_drop_head :
    ∀ (l : List ConversationMessage) (i : Nat), findIdxUser l = some i →
      ∃ m rest, l.drop i = m :: rest ∧ isUserMsg m = true := by
  intro l
  induction l with
  | nil => intro i h; simp [findIdxUser] at h
  | cons x rest ih =>
    intro i h
    by_cases hu : isUserMsg x = true
    · simp [findIdxUser, hu] at h
      exact ⟨x, rest, by simp [← h], hu⟩
    · have hu' : isUserMsg x = false := by simpa using hu
      simp [findIdxUser, hu'] at h
      obtain ⟨j, hj, rfl⟩ := h
      obtain ⟨m, r2, hdrop, hm⟩ := ih j hj
      exact ⟨m, r2, by simpa [List.drop_succ_cons] using hdrop, hm⟩

/-- C10 amended: when truncation is triggered and the original history has no
user message at all, the result is exactly `[⟨user, ""⟩]`; for every non-empty
input the result is non-empty; and on every truncating path the first element
has role user. -/
theorem c10_truncateHistory_fallbacks (history : List ConversationMessage)
    (config : CustomAgentConfig) :
    (truncationTriggered history config →
      (∀ m ∈ history, isUserMsg m = false) →
        truncateHistory history config = [{ role := Role.user, content := "" }]) ∧
    (history ≠ [] → truncateHistory history config ≠ []) ∧
    (truncationTriggered history config →
      ∃ m rest, truncateHistory history config = m :: rest ∧ isUserMsg m = true) := by
  refine ⟨?_, ?_, ?_⟩
  · intro htrig hall
    obtain ⟨ht1, ht2⟩ := htrig
    have hwin : ∀ m ∈ slidingWindow config.maxContextMessages config.maxTokens history,
        isUserMsg m = false := by
      intro m hm
      unfold slidingWindow at hm
      rw [List.mem_reverse] at hm
      exact hall m (List.mem_reverse.mp (takeWindow_mem _ _ _ _ _ _ hm))
    have hfall : fallbackHistory history = [{ role := Role.user, content := "" }] := by
      unfold fallbackHistory
      have : history.reverse.find? isUserMsg = none := by
        rw [List.find?_eq_none]
        intro x hx
        simp [hall x (List.mem_reverse.mp hx)]
      rw [this]
    simp only [truncateHistory, if_neg ht1, if_neg ht2]
    rw [← hfall]
    cases hw : slidingWindow config.maxContextMessages config.maxTokens history with
    | nil => simp [truncPost]
    | cons m rest =>
      have hm : isUserMsg m = false := hwin m (hw ▸ List.mem_cons_self m rest)
      have hnone : findIdxUser (m :: rest) = none :=
        findIdxUser_none_of_all _ (fun x hx => hwin x (hw ▸ hx))
      simp [truncPost, hm, hnone]
  · intro hne
    by_cases h1 : config.maxContextMessages ≤ 0 ∧ config.maxTokens ≤ 0
    · simpa [truncateHistory, h1] using hne
    · by_cases h2 : (config.maxContextMessages ≤ 0 ∨
          (history.length : Int) ≤ config.maxContextMessages) ∧
          (config.maxTokens ≤ 0 ∨ (totalTokensOf history : Int) ≤ config.maxTokens)
      · simpa [truncateHistory, h1, h2] using hne
      · simp only [truncateHistory, if_neg h1, if_neg h2]
        cases hw : slidingWindow config.maxContextMessages config.maxTokens history with
        | nil => simp [truncPost, fallbackHistory]
        | cons m rest =>
          by_cases hu : isUserMsg m = true
          · simp [truncPost, hu]
          · have hu' : isUserMsg m = false := by simpa using hu
            cases hf : findIdxUser (m :: rest) with
            | none => simp [truncPost, hu', hf, fallbackHistory]
            | some i =>
              have hlt := findIdxUser_lt_length _ _ hf
              simp only [truncPost, hu', Bool.false_eq_true, if_false, hf]
              intro hcon
              rw [List.drop_eq_nil_iff] at hcon
              omega
  · intro htrig
    obtain ⟨ht1, ht2⟩ := htrig
    simp only [truncateHistory, if_neg ht1, if_neg ht2]
    have hfb : ∃ m rest, fallbackHistory history = m :: rest ∧ isUserMsg m = true := by
      refine ⟨⟨Role.user, match history.reverse.find? isUserMsg with
                          | some m => m.content
                          | none => ""⟩, [], rfl, rfl⟩
    cases hw : slidingWindow config.maxContextMessages config.maxTokens history with
    | nil =>
      obtain ⟨x, r2, hEq, hx⟩ := hfb
      exact ⟨x, r2, by simpa [truncPost] using hEq, hx⟩
    | cons m rest =>
      by_cases hu : isUserMsg m = true
      · exact ⟨m, rest, by simp [truncPost, hu], hu⟩
      · have hu' : isUserMsg m = false := by simpa using hu
        cases hf : findIdxUser (m :: rest) with
        | none =>
          obtain ⟨x, r2, hEq, hx⟩ := hfb
          exact ⟨x, r2, by simpa [truncPost, hu', hf] using hEq, hx⟩
        | some i =>
          obtain ⟨x, r2, hdrop, hx⟩ := findIdxUser_drop_head _ _ hf
          exact ⟨x, r2, by simp [truncPost, hu', hf, hdrop], hx⟩

/-- C10 witness: a two-assistant history over a message limit of 1 triggers
truncation, has no user message, and yields exactly `[⟨user, ""⟩]`. -/
theorem c10_witness :
    truncateHistory [⟨Role.assistant, "A0"⟩, ⟨Role.assistant, "A1"⟩] ⟨1, 0, 0, 0⟩
        = [{ role := Role.user, content := "" }] ∧
    truncateHistory [⟨Role.assistant, "A0"⟩, ⟨Role.assistant, "A1"⟩] ⟨1, 0, 0, 0⟩ ≠ [] := by
  refine ⟨(c10_truncateHistory_fallbacks _ _).1 ⟨by decide, by decide⟩ (by decide),
          (c10_truncateHistory_fallbacks _ _).2.1 (by decide)⟩

/-! ## C6 / C7 — observation parser -/

/-- C6: the parser's skip and failure paths all return the empty list (the
embedding is total, so "never throws" holds by construction; the three paths
the claim names are proved): text whose preprocessed, trimmed form contains
neither brace nor bracket; the `skip:true` sentinel object; and any
`JSON.parse` failure. -/
theorem c6_parseObservationsJson_skip_paths (validTypes : List String) (text : String) :
    ((hasChar (trimL (preprocessJsonResponseL text.data true)) '{' = false ∧
      hasChar (trimL (preprocessJsonResponseL text.data true)) '[' = false) →
        parseObservationsJson validTypes text = []) ∧
    (jsonParseL (trimL (preprocessJsonResponseL text.data true)) =
        some (JValue.obj [("skip", JValue.bool true)]) →
        parseObservationsJson validTypes text = []) ∧
    (jsonParseL (trimL (preprocessJsonResponseL text.data true)) = none →
        parseObservationsJson validTypes text = []) := by
  refine ⟨?_, ?_, ?_⟩
  · intro ⟨h1, h2⟩
    simp [parseObservationsJson, h1, h2]
  · intro hp
    by_cases hc : (!hasChar (trimL (preprocessJsonResponseL text.data true)) '{' &&
        !hasChar (trimL (preprocessJsonResponseL text.data true)) '[') = true
    · simp [parseObservationsJson, hc]
    · have hsent : isSkipSentinel (JValue.obj [("skip", JValue.bool true)]) = true := rfl
      have hpl : isPlainObj (JValue.obj [("skip", JValue.bool true)]) = true := rfl
      simp [parseObservationsJson, hc, hp, hsent, hpl]
  · intro hp
    by_cases hc : (!hasChar (trimL (preprocessJsonResponseL text.data true)) '{' &&
        !hasChar (trimL (preprocessJsonResponseL text.data true)) '[') = true
    · simp [parseObservationsJson, hc]
    · simp [parseObservationsJson, hc, hp]

/-- C6 witness: the three skip paths at concrete inputs — prose with no JSON
payload, the explicit sentinel, and an unparsable brace fragment. -/
theorem c6_witness :
    parseObservationsJson ["discovery"] "hello world" = [] ∧
    parseObservationsJson ["discovery"] "\x7b\"skip\":true\x7d" = [] ∧
    parseObservationsJson ["discovery"] "\x7bbad" = [] := by
  refine ⟨(c6_parseObservationsJson_skip_paths ["discovery"] "hello world").1
            ⟨by decide, by decide⟩,
          (c6_parseObservationsJson_skip_paths ["discovery"] "\x7b\"skip\":true\x7d").2.1
            rfl,
          (c6_parseObservationsJson_skip_paths ["discovery"] "\x7bbad").2.2 rfl⟩

/-- C7: with a non-empty whitelist, every returned observation's type is a
whitelist member (raw types that are missing, non-string, or not in the
whitelist resolve to the whitelist's first entry), and the returned concepts
never contain the resolved type. -/
theorem c7_observation_type_invariant (validTypes : List String) (text : String)
    (hne : validTypes ≠ []) :
    ∀ obs ∈ parseObservationsJson validTypes text,
      obs.type ∈ validTypes ∧ obs.type ∉ obs.concepts := by
  intro obs hobs
  have hhead : validTypes.headD "" ∈ validTypes := by
    cases validTypes with
    | nil => exact absurd rfl hne
    | cons v vs => exact List.mem_cons_self v vs
  unfold parseObservationsJson at hobs
  dsimp only at hobs
  split at hobs
  · simp at hobs
  · split at hobs
    · simp at hobs
    · split at hobs
      · simp at hobs
      · split at hobs
        · simp at hobs
        · rw [List.mem_filterMap] at hobs
          obtain ⟨raw, _, hraw⟩ := hobs
          unfold observationOf at hraw
          split at hraw
          on_goal 2 => simp at hraw
          simp only [Option.some.injEq] at hraw
          subst hraw
          constructor
          · dsimp only
            split
            · split
              · next hmem => exact List.mem_of_elem_eq_true hmem
              · exact hhead
            · exact hhead
          · dsimp only
            intro hmem
            rw [List.mem_filter] at hmem
            simp at hmem

/-- C7 witness: a concrete response whose raw type needs trimming and whose
concepts repeat the type — the resolved type is whitelisted and filtered out
of the concepts. -/
theorem c7_witness :
    (["discovery", "bugfix"] : List String) ≠ [] ∧
    (({ type := "discovery", title := none, subtitle := none, facts := [],
        narrative := none, concepts := ["x"], files_read := [],
        files_modified := [] } : ParsedObservation).type ∈ ["discovery", "bugfix"] ∧
     ({ type := "discovery", title := none, subtitle := none, facts := [],
        narrative := none, concepts := ["x"], files_read := [],
        files_modified := [] } : ParsedObservation).type ∉
          ({ type := "discovery", title := none, subtitle := none, facts := [],
             narrative := none, concepts := ["x"], files_read := [],
             files_modified := [] } : ParsedObservation).concepts) := by
  refine ⟨by decide, c7_observation_type_invariant ["discovery", "bugfix"]
    "\x7b\"type\":\" discovery \",\"concepts\":[\"discovery\",\"x\"]\x7d" (by decide)
    _ (by decide)⟩

/-! ## C5 — bounded-retry fetcher -/

theorem retryGo_calls_le (env : FetchEnv) :
    ∀ (k : Nat) (lastError : Option String) (idx : Nat),
      (retryGo env lastError idx k).2 ≤ idx + k := by
  intro k
  induction k with
  | zero => intro lastError idx; simp [retryGo]
  | succ k ih =>
    intro lastError idx
    rw [retryGo]
    cases env.timed idx with
    | success r => simp only; omega
    | timeoutErr m =>
      have := ih (some m) (idx + 1)
      simp only
      omega
    | otherErr m => simp only; omega

theorem retryGo_all_timeouts (env : FetchEnv) (msgs : Nat → String) :
    ∀ (k : Nat) (lastError : Option String) (idx : Nat),
      (∀ j, j < k → env.timed (idx + j) = FetchOutcome.timeoutErr (msgs (idx + j))) →
      1 ≤ k →
      (retryGo env lastError idx k).1 =
        Except.error (FetchFailure.timeoutFail (msgs (idx + k - 1))) := by
  intro k
  induction k with
  | zero => intro lastError idx _ h1; omega
  | succ k ih =>
    intro lastError idx hall _
    have h0 : env.timed idx = FetchOutcome.timeoutErr (msgs idx) := by
      have := hall 0 (by omega)
      simpa using this
    rw [retryGo, h0]
    cases k with
    | zero => simp [retryGo]
    | succ k2 =>
      have := ih (some (msgs idx)) (idx + 1)
        (fun j hj => by
          have := hall (j + 1) (by omega)
          simpa [Nat.add_assoc, Nat.add_comm, Nat.add_left_comm] using this)
        (by omega)
      simpa [Nat.add_sub_cancel, Nat.add_assoc, Nat.add_comm, Nat.add_left_comm] using this

theorem retryGo_prior_timeouts (env : FetchEnv) :
    ∀ (k : Nat) (lastError : Option String) (idx i : Nat), idx ≤ i →
      i + 1 < (retryGo env lastError idx k).2 →
      ∃ m, env.timed i = FetchOutcome.timeoutErr m := by
  intro k
  induction k with
  | zero =>
    intro lastError idx i hle hlt
    simp [retryGo] at hlt
    omega
  | succ k ih =>
    intro lastError idx i hle hlt
    rw [retryGo] at hlt
    cases ht : env.timed idx with
    | success r => rw [ht] at hlt; simp at hlt; omega
    | otherErr m => rw [ht] at hlt; simp at hlt; omega
    | timeoutErr m =>
      rw [ht] at hlt
      by_cases hi : i = idx
      · exact ⟨m, hi ▸ ht⟩
      · exact ih (some m) (idx + 1) i (by omega) hlt

/-- C5: the wrapper performs at most `maxRetries` timed fetches; with both
timeouts disabled it degrades to exactly one plain (timer-free) fetch and no
timed fetch; with a timeout configured there is no plain fetch, a non-timeout
error on the first attempt propagates immediately after exactly one call,
exhausting all attempts with timeouts raises the last timeout error, and every
attempt before the last one was a timeout (non-timeout outcomes are never
retried). -/
theorem c5_fetchWithTimeoutAndRetry (env : FetchEnv) (config : CustomAgentConfig)
    (n : Nat) :
    (fetchWithTimeoutAndRetry env config n).2.1 ≤ n ∧
    (config.firstTokenTimeoutSeconds ≤ 0 → config.totalTimeoutSeconds ≤ 0 →
      fetchWithTimeoutAndRetry env config n =
        ((match env.plain with
          | Except.ok r => Except.ok r
          | Except.error m => Except.error (FetchFailure.otherFail m)), 0, 1)) ∧
    (¬(config.firstTokenTimeoutSeconds ≤ 0 ∧ config.totalTimeoutSeconds ≤ 0) →
      (fetchWithTimeoutAndRetry env config n).2.2 = 0 ∧
      (∀ m, env.timed 0 = FetchOutcome.otherErr m → 1 ≤ n →
        (fetchWithTimeoutAndRetry env config n).1 =
          Except.error (FetchFailure.otherFail m) ∧
        (fetchWithTimeoutAndRetry env config n).2.1 = 1) ∧
      (∀ msgs : Nat → String,
        (∀ i, i < n → env.timed i = FetchOutcome.timeoutErr (msgs i)) → 1 ≤ n →
        (fetchWithTimeoutAndRetry env config n).1 =
          Except.error (FetchFailure.timeoutFail (msgs (n - 1)))) ∧
      (∀ i, i + 1 < (fetchWithTimeoutAndRetry env config n).2.1 →
        ∃ m, env.timed i = FetchOutcome.timeoutErr m)) := by
  by_cases hz : ((if config.firstTokenTimeoutSeconds > 0 then
      config.firstTokenTimeoutSeconds * 1000 else 0) = 0 ∧
      (if config.totalTimeoutSeconds > 0 then config.totalTimeoutSeconds * 1000 else 0) = 0)
  · refine ⟨?_, ?_, ?_⟩
    · simp only [fetchWithTimeoutAndRetry, if_pos hz]
      cases env.plain <;> simp
    · intro _ _
      simp only [fetchWithTimeoutAndRetry, if_pos hz]
      cases env.plain <;> rfl
    · intro hcon
      exfalso
      apply hcon
      constructor
      · by_cases h : config.firstTokenTimeoutSeconds > 0
        · exfalso; rw [if_pos h] at hz; omega
        · omega
      · by_cases h : config.totalTimeoutSeconds > 0
        · exfalso; rw [if_pos h] at hz; omega
        · omega
  · have hunf : fetchWithTimeoutAndRetry env config n =
        ((retryGo env none 0 n).1, (retryGo env none 0 n).2, 0) := by
      simp only [fetchWithTimeoutAndRetry]
      rw [if_neg hz]
    refine ⟨?_, ?_, ?_⟩
    · rw [hunf]
      simpa using retryGo_calls_le env n none 0
    · intro h1 h2
      exfalso
      apply hz
      constructor
      · rw [if_neg (by omega)]
      · rw [if_neg (by omega)]
    · intro _
      refine ⟨by rw [hunf], ?_, ?_, ?_⟩
      · intro m hm hn
        cases n with
        | zero => omega
        | succ k =>
          rw [hunf]
          constructor
          · simp [retryGo, hm]
          · simp [retryGo, hm]
      · intro msgs hall hn
        rw [hunf]
        have := retryGo_all_timeouts env msgs n none 0
          (fun j hj => by simpa using hall j hj) hn
        simpa using this
      · intro i hi
        rw [hunf] at hi
        exact retryGo_prior_timeouts env n none 0 i (by omega) hi

/-- C5 witness: every attempt times out under a configured first-byte
timeout — three timed fetches, no plain fetch, the last timeout raised; and
with both timeouts disabled the same environment degrades to one plain
fetch. -/
theorem c5_witness :
    (fetchWithTimeoutAndRetry
        ⟨fun _ => FetchOutcome.timeoutErr "Request timeout",
         Except.ok ⟨true, 200, "body"⟩⟩ ⟨0, 0, 30, 0⟩ 3).2.1 ≤ 3 ∧
    (fetchWithTimeoutAndRetry
        ⟨fun _ => FetchOutcome.timeoutErr "Request timeout",
         Except.ok ⟨true, 200, "body"⟩⟩ ⟨0, 0, 30, 0⟩ 3).1 =
      Except.error (FetchFailure.timeoutFail "Request timeout") ∧
    fetchWithTimeoutAndRetry
        ⟨fun _ => FetchOutcome.timeoutErr "Request timeout",
         Except.ok ⟨true, 200, "body"⟩⟩ ⟨0, 0, 0, 0⟩ 3 =
      (Except.ok ⟨true, 200, "body"⟩, 0, 1) := by
  refine ⟨(c5_fetchWithTimeoutAndRetry _ _ _).1, ?_, ?_⟩
  · exact ((c5_fetchWithTimeoutAndRetry
      ⟨fun _ => FetchOutcome.timeoutErr "Request timeout",
       Except.ok ⟨true, 200, "body"⟩⟩ ⟨0, 0, 30, 0⟩ 3).2.2 (by decide)).2.2.1
      (fun _ => "Request timeout") (fun i _ => rfl) (by decide)
  · exact ((c5_fetchWithTimeoutAndRetry
      ⟨fun _ => FetchOutcome.timeoutErr "Request timeout",
       Except.ok ⟨true, 200, "body"⟩⟩ ⟨0, 0, 0, 0⟩ 3).2.1 (by decide) (by decide))

/-! ## C9 — URL builder -/

theorem leadsWith_append_self : ∀ (p x : List Char), leadsWith p (p ++ x) = true := by
  intro p x
  induction p with
  | nil => rfl
  | cons c ps ih => simp [leadsWith, ih]

theorem leadsWith_head_ne (a : Char) (ps : List Char) (c : Char) (cs : List Char)
    (h : ¬a = c) : leadsWith (a :: ps) (c :: cs) = false := by
  simp [leadsWith, h]

theorem dropWhile_head_false {α : Type} (p : α → Bool) :
    ∀ (l : List α) (c : α) (t : List α), l.dropWhile p = c :: t → p c = false := by
  intro l
  induction l with
  | nil => intro c t h; simp at h
  | cons a l ih =>
    intro c t h
    by_cases hp : p a = true
    · rw [List.dropWhile_cons_of_pos hp] at h
      exact ih c t h
    · have hp' : p a = false := by simpa using hp
      rw [List.dropWhile_cons_of_neg (by simp [hp'])] at h
      cases h
      exact hp'

theorem dropWhile_idem {α : Type} (p : α → Bool) (l : List α) :
    (l.dropWhile p).dropWhile p = l.dropWhile p := by
  cases h : l.dropWhile p with
  | nil => rfl
  | cons c t =>
    have := dropWhile_head_false p l c t h
    rw [List.dropWhile_cons_of_neg (by simp [this])]

theorem stripTrailSlashes_idem (l : List Char) :
    stripTrailSlashes (stripTrailSlashes l) = stripTrailSlashes l := by
  unfold stripTrailSlashes
  rw [List.reverse_reverse, dropWhile_idem]

/-- Appending a suffix that neither is empty nor ends in a slash is preserved
by trailing-slash stripping. -/
theorem stripTrailSlashes_append (x s : List Char)
    (hdw : s.reverse.dropWhile (fun c => c = '/') = s.reverse)
    (hne : s.reverse.isEmpty = false) :
    stripTrailSlashes (x ++ s) = x ++ s := by
  unfold stripTrailSlashes
  rw [List.reverse_append, List.dropWhile_append, hdw]
  rw [if_neg (by simp [hne])]
  simp

theorem trailsWith_append_self (p x : List Char) : trailsWith p (x ++ p) = true := by
  unfold trailsWith
  rw [List.reverse_append]
  exact leadsWith_append_self _ _

theorem trailsWithCI_append_self (p x : List Char) : trailsWithCI p (x ++ p) = true := by
  unfold trailsWithCI
  rw [List.reverse_append, List.map_append]
  exact leadsWith_append_self _ _

theorem stripSuffixCI_of_false (pat cs : List Char) (h : trailsWithCI pat cs = false) :
    stripSuffixCI pat cs = cs := by
  unfold stripSuffixCI
  rw [h]
  simp

theorem stripSuffixCI_append (pat x : List Char) :
    stripSuffixCI pat (x ++ pat) = x := by
  unfold stripSuffixCI
  rw [trailsWithCI_append_self]
  simp only [if_true]
  rw [show (x ++ pat).length - pat.length = x.length from by simp [List.length_append]]
  exact List.take_left _ _

/-- C9 amended: the OpenAI builder is idempotent on its own output for every
base URL; the three Gemini host variants (bare host, `/v1beta`, and
`/v1beta/models` qualified) all produce the single canonical
`/v1beta/models/(model):(action)` URL with `?alt=sse` appended exactly when
streaming; but the Gemini builder is not idempotent on its fully-qualified
output (see the counterexample). -/
theorem c9_buildApiUrl_amended (host : List Char) (model : String) (streaming : Bool)
    (hslash : stripTrailSlashes host = host)
    (hv1 : trailsWithCI v1betaSeg host = false)
    (hv2 : trailsWithCI v1betaModelsSeg host = false) :
    (∀ (b m2 : String) (s2 : Bool),
      buildApiUrl (buildApiUrl b CustomProtocol.openai m2 s2) CustomProtocol.openai m2 s2 =
        buildApiUrl b CustomProtocol.openai m2 s2) ∧
    buildApiUrl (String.mk host) CustomProtocol.gemini model streaming =
      geminiCanonical host model streaming ∧
    buildApiUrl (String.mk (host ++ v1betaSeg)) CustomProtocol.gemini model streaming =
      geminiCanonical host model streaming ∧
    buildApiUrl (String.mk (host ++ v1betaModelsSeg)) CustomProtocol.gemini model streaming =
      geminiCanonical host model streaming := by
  have hccdw : chatCompletionsSeg.reverse.dropWhile (fun c => c = '/') =
      chatCompletionsSeg.reverse := by decide
  have hccne : chatCompletionsSeg.reverse.isEmpty = false := by decide
  refine ⟨?_, ?_, ?_, ?_⟩
  · intro b m2 s2
    simp only [buildApiUrl]
    by_cases hc1 : trailsWith chatCompletionsSeg (stripTrailSlashes b.data) = true
    · rw [if_pos hc1]
      simp only [stripTrailSlashes_idem]
      rw [if_pos hc1]
    · rw [if_neg hc1]
      by_cases hc2 : trailsWith v1Seg (stripTrailSlashes b.data) = true
      · rw [if_pos hc2]
        simp only
        rw [stripTrailSlashes_append _ _ hccdw hccne,
          if_pos (trailsWith_append_self _ _)]
      · rw [if_neg hc2]
        simp only
        rw [List.append_assoc, stripTrailSlashes_append _ _ (by decide) (by decide)]
        have hc3 : trailsWith chatCompletionsSeg
            (stripTrailSlashes b.data ++ (v1Seg ++ chatCompletionsSeg)) = true := by
          rw [← List.append_assoc]
          exact trailsWith_append_self _ _
        rw [if_pos hc3]
  · simp only [buildApiUrl, geminiCanonical]
    rw [hslash, stripSuffixCI_of_false _ _ hv2, stripSuffixCI_of_false _ _ hv1]
  · simp only [buildApiUrl, geminiCanonical]
    rw [stripTrailSlashes_append _ _ (by decide) (by decide)]
    have hm : trailsWithCI v1betaModelsSeg (host ++ v1betaSeg) = false := by
      unfold trailsWithCI
      rw [List.reverse_append, List.map_append]
      rw [show v1betaSeg.reverse.map lowerAscii = "ateb1v/".data from by decide]
      rw [show v1betaModelsSeg.reverse.map lowerAscii = "sledom/ateb1v/".data from by decide]
      exact leadsWith_head_ne _ _ _ _ (by decide)
    rw [stripSuffixCI_of_false _ _ hm, stripSuffixCI_append]
  · simp only [buildApiUrl, geminiCanonical]
    rw [stripTrailSlashes_append _ _ (by decide) (by decide)]
    rw [stripSuffixCI_append, stripSuffixCI_of_false _ _ hv1]

/-- C9 witness: the repository test's host, in all three Gemini variants and
for the OpenAI round trip. -/
theorem c9_witness :
    buildApiUrl "https://api.example.com" CustomProtocol.gemini "gemini-2.5-flash" false =
      geminiCanonical "https://api.example.com".data "gemini-2.5-flash" false ∧
    buildApiUrl (String.mk ("https://api.example.com".data ++ v1betaSeg))
        CustomProtocol.gemini "gemini-2.5-flash" false =
      geminiCanonical "https://api.example.com".data "gemini-2.5-flash" false ∧
    buildApiUrl (String.mk ("https://api.example.com".data ++ v1betaModelsSeg))
        CustomProtocol.gemini "gemini-2.5-flash" false =
      geminiCanonical "https://api.example.com".data "gemini-2.5-flash" false ∧
    buildApiUrl (buildApiUrl "https://openai-compatible.example.com/v1/chat/completions"
        CustomProtocol.openai "gpt-4o" false) CustomProtocol.openai "gpt-4o" false =
      buildApiUrl "https://openai-compatible.example.com/v1/chat/completions"
        CustomProtocol.openai "gpt-4o" false := by
  have h := c9_buildApiUrl_amended "https://api.example.com".data "gemini-2.5-flash" false
    (by decide) (by decide) (by decide)
  exact ⟨h.2.1, h.2.2.1, h.2.2.2, h.1 _ _ _⟩

/-! ## C8 — markdown fence stripping -/

theorem fenceMatchAt_head_ne (c : Char) (rest : List Char) (h : ¬c = tickChar) :
    fenceMatchAt (c :: rest) = none := by
  unfold fenceMatchAt
  rw [show ticks3 = tickChar :: [tickChar, tickChar] from rfl,
    leadsWith_head_ne _ _ _ _ (fun hh => h hh.symm)]
  simp

theorem fenceScan_append_of_no_ticks :
    ∀ (pre rest : List Char), (∀ c ∈ pre, ¬c = tickChar) →
      fenceScan (pre ++ rest) = fenceScan rest := by
  intro pre
  induction pre with
  | nil => intro rest _; rfl
  | cons c pre ih =>
    intro rest h
    have hc := h c (List.mem_cons_self c pre)
    rw [List.cons_append]
    have hnone := fenceMatchAt_head_ne c (pre ++ rest) hc
    simp only [fenceScan, hnone]
    exact ih rest (fun x hx => h x (List.mem_cons_of_mem c hx))

theorem fenceTail_at_close (post : List Char) :
    fenceTail ('\n' :: (ticks3 ++ post)) = true := by
  unfold fenceTail
  simp [leadsWith_append_self]

/-- The lazy group absorbs a backtick-free block and stops exactly at the
closing `\n`-plus-fence. -/
theorem groupScan_no_ticks (post : List Char) :
    ∀ (g acc : List Char), (∀ c ∈ g, ¬c = tickChar) →
      groupScan acc (g ++ '\n' :: (ticks3 ++ post)) = some (acc.reverse ++ g) := by
  intro g
  induction g with
  | nil =>
    intro acc _
    rw [List.nil_append]
    unfold groupScan
    rw [if_pos (fenceTail_at_close post)]
    simp
  | cons d g ih =>
    intro acc h
    have hd : ¬d = tickChar := h d (List.mem_cons_self d g)
    have h1 : leadsWith ticks3 (d :: (g ++ '\n' :: (ticks3 ++ post))) = false := by
      rw [show ticks3 = tickChar :: [tickChar, tickChar] from rfl]
      exact leadsWith_head_ne _ _ _ _ (fun hh => hd hh.symm)
    have h2 : leadsWith ticks3 (g ++ '\n' :: (ticks3 ++ post)) = false := by
      cases g with
      | nil =>
        rw [List.nil_append]
        rw [show ticks3 = tickChar :: [tickChar, tickChar] from rfl]
        exact leadsWith_head_ne _ _ _ _ (by decide)
      | cons e g2 =>
        have he := h e (List.mem_cons_of_mem d (List.mem_cons_self e g2))
        rw [List.cons_append]
        rw [show ticks3 = tickChar :: [tickChar, tickChar] from rfl]
        exact leadsWith_head_ne _ _ _ _ (fun hh => he hh.symm)
    have hft : fenceTail (d :: (g ++ '\n' :: (ticks3 ++ post))) = false := by
      unfold fenceTail
      rw [h1]
      simp [h2]
    rw [List.cons_append]
    unfold groupScan
    rw [if_neg (by simp [hft])]
    rw [ih (d :: acc) (fun x hx => h x (List.mem_cons_of_mem d hx))]
    simp

/-- The fence regex anchored at a ```` ```json ```` opener followed by a
newline, a backtick-free non-whitespace-headed block, a newline and the
closing fence captures exactly the block. -/
theorem fenceMatchAt_json_block (g post : List Char)
    (hg : ∀ c ∈ g, ¬c = tickChar)
    (hhead : ∃ d gt, g = d :: gt ∧ isJsWs d = false) :
    fenceMatchAt (ticks3 ++ (jsonWord ++ '\n' :: (g ++ '\n' :: (ticks3 ++ post))))
      = some g := by
  obtain ⟨d, gt, hgdef, hdws⟩ := hhead
  unfold fenceMatchAt
  rw [if_pos (leadsWith_append_self _ _)]
  rw [List.drop_left' (show ticks3.length = 3 from rfl)]
  unfold fenceAfterTicks
  rw [if_pos (leadsWith_append_self _ _)]
  rw [List.drop_left' (show jsonWord.length = 4 from rfl)]
  have hws : ('\n' :: (g ++ '\n' :: (ticks3 ++ post))).takeWhile isJsWs = ['\n'] := by
    subst hgdef
    rw [List.takeWhile_cons_of_pos (by decide), List.cons_append,
      List.takeWhile_cons_of_neg (by simp [hdws])]
  have halt : wsAlternatives ('\n' :: (g ++ '\n' :: (ticks3 ++ post))) =
      [g ++ '\n' :: (ticks3 ++ post), '\n' :: (g ++ '\n' :: (ticks3 ++ post))] := by
    unfold wsAlternatives
    rw [hws]
    rfl
  rw [halt]
  have hfirst : tryFenceFrom (g ++ '\n' :: (ticks3 ++ post)) = some g := by
    unfold tryFenceFrom
    have hnl : nlAlternatives (g ++ '\n' :: (ticks3 ++ post)) =
        [g ++ '\n' :: (ticks3 ++ post)] := by
      subst hgdef
      rw [List.cons_append]
      have hdn : ¬d = '\n' := by
        intro hcon
        rw [hcon] at hdws
        simp [isJsWs] at hdws
      unfold nlAlternatives
      dsimp only
      rw [if_neg hdn, ← List.cons_append]
    rw [hnl]
    simp only [List.map_cons, List.map_nil]
    unfold firstSome
    rw [groupScan_no_ticks post g [] hg]
    simp
  simp only [List.map_cons, List.map_nil]
  unfold firstSome
  rw [hfirst]

/-- C8 amended: the fence-stripping step fires on the first fenced block
found anywhere in the trimmed text — not only when the whole text is wrapped
— and replaces the entire working text with that block's trimmed capture,
discarding any text outside the fence. -/
theorem c8_fence_step_amended (pre g post : List Char)
    (hpre : ∀ c ∈ pre, ¬c = tickChar)
    (hg : ∀ c ∈ g, ¬c = tickChar)
    (hhead : ∃ d gt, g = d :: gt ∧ isJsWs d = false)
    (htrim : trimL (pre ++ (ticks3 ++ (jsonWord ++ '\n' :: (g ++ '\n' :: (ticks3 ++ post)))))
      = pre ++ (ticks3 ++ (jsonWord ++ '\n' :: (g ++ '\n' :: (ticks3 ++ post))))) :
    codeFenceStep (pre ++ (ticks3 ++ (jsonWord ++ '\n' :: (g ++ '\n' :: (ticks3 ++ post)))))
      = trimL g := by
  have hscan : fenceScan (ticks3 ++ (jsonWord ++ '\n' :: (g ++ '\n' :: (ticks3 ++ post))))
      = some g := by
    have hmatch := fenceMatchAt_json_block g post hg hhead
    rw [show ticks3 ++ (jsonWord ++ '\n' :: (g ++ '\n' :: (ticks3 ++ post)))
        = tickChar :: (tickChar :: tickChar ::
            (jsonWord ++ '\n' :: (g ++ '\n' :: (ticks3 ++ post)))) from rfl] at hmatch ⊢
    simp only [fenceScan, hmatch]
  unfold codeFenceStep
  dsimp only
  rw [htrim, fenceScan_append_of_no_ticks pre _ hpre, hscan]

/-- C8 witness: a fenced JSON block strictly inside surrounding prose — the
step returns the block alone. -/
theorem c8_witness :
    codeFenceStep ("a ".data ++ (ticks3 ++ (jsonWord ++ '\n' ::
        ("\x7b\"k\":1\x7d".data ++ '\n' :: (ticks3 ++ " b".data)))))
      = trimL "\x7b\"k\":1\x7d".data := by
  exact c8_fence_step_amended "a ".data "\x7b\"k\":1\x7d".data " b".data
    (by decide) (by decide) ⟨'{', "\"k\":1\x7d".data, by decide, by decide⟩ (by decide)

/-! ## C4 — SSE decoders -/

/-- A parse producing an object value can only start at an opening brace. -/
theorem parseValue_obj_head (f : Nat) (cs : List Char) (m : List (String × JValue))
    (r : List Char) (h : parseValue f cs = some (JValue.obj m, r)) :
    ∃ rest, cs = '{' :: rest := by
  match f with
  | 0 => simp [parseValue] at h
  | Nat.succ f =>
    unfold parseValue at h
    split at h
    · exact ⟨_, rfl⟩
    · rw [Option.map_eq_some'] at h
      obtain ⟨p, _, hp⟩ := h
      simp [Prod.ext_iff] at hp
    · rw [Option.map_eq_some'] at h
      obtain ⟨p, _, hp⟩ := h
      simp [Prod.ext_iff] at hp
    · split at h <;> simp_all
    · split at h <;> simp_all
    · split at h <;> simp_all
    · split at h
      · rw [Option.map_eq_some'] at h
        obtain ⟨p, _, hp⟩ := h
        simp [Prod.ext_iff] at hp
      · simp at h
    · simp at h

theorem jsonParseL_obj_head (cs : List Char) (m : List (String × JValue))
    (h : jsonParseL cs = some (JValue.obj m)) :
    ∃ rest, skipJsonWs cs = '{' :: rest := by
  unfold jsonParseL at h
  dsimp only at h
  cases hp : parseValue ((skipJsonWs cs).length + 1) (skipJsonWs cs) with
  | none => rw [hp] at h; simp at h
  | some p =>
    rw [hp] at h
    obtain ⟨v, r⟩ := p
    dsimp only at h
    split at h
    · injection h with h2
      subst h2
      exact parseValue_obj_head _ _ _ _ hp
    · exact absurd h (by simp)

theorem isJsWs_false_imp_isJsonWs (c : Char) (h : isJsWs c = false) :
    isJsonWs c = false := by
  simp only [isJsWs, Bool.or_eq_false_iff] at h
  simp only [isJsonWs, Bool.or_eq_false_iff]
  tauto

/-- A JS-trimmed string has no leading JSON whitespace. -/
theorem skipJsonWs_trimL (cs : List Char) : skipJsonWs (trimL cs) = trimL cs := by
  cases h : trimL cs with
  | nil => rfl
  | cons c t =>
    have hpre : (((cs.dropWhile isJsWs).reverse.dropWhile isJsWs).reverse)
        <+: cs.dropWhile isJsWs := by
      rw [← List.reverse_suffix, List.reverse_reverse]
      exact List.dropWhile_suffix isJsWs
    rw [show trimL cs = ((cs.dropWhile isJsWs).reverse.dropWhile isJsWs).reverse
        from rfl] at h
    obtain ⟨u, hu⟩ := hpre
    rw [h] at hu
    have hc : isJsWs c = false := by
      refine dropWhile_head_false isJsWs cs c (t ++ u) ?_
      rw [List.cons_append] at hu
      exact hu.symm
    unfold skipJsonWs
    rw [List.dropWhile_cons_of_neg (by simp [isJsWs_false_imp_isJsonWs c hc])]

theorem jsGet_of_not_obj (v : JValue) (key : String) (h : isPlainObj v = false) :
    jsGet v key = none := by
  cases v <;> simp_all [jsGet, isPlainObj]

/-- The claim-side OpenAI fallback (no brace precondition) agrees with the
code's guarded fallback whenever no content was streamed. -/
theorem oFallbackSpec_eq_code (st : OSt) (tr : List Char)
    (hc : st.content = []) (hskip : skipJsonWs tr = tr) :
    oFallbackSpec st tr = oFallback st tr := by
  unfold oFallback oFallbackSpec
  by_cases hb : leadsWith ['{'] tr = true
  · rw [if_pos hb]
  · rw [if_neg hb]
    cases hp : jsonParseL tr with
    | none => simp [hp]
    | some data =>
      have hobj : isPlainObj data = false := by
        cases data with
        | obj ms =>
          exfalso
          obtain ⟨rest, hrest⟩ := jsonParseL_obj_head tr ms hp
          rw [hskip] at hrest
          rw [hrest] at hb
          exact hb (by simp [leadsWith])
        | null => rfl
        | bool b => rfl
        | num l => rfl
        | str s => rfl
        | arr xs => rfl
      have h1 : jsOpenAIMsgContent data = none := by
        unfold jsOpenAIMsgContent
        rw [jsGet_of_not_obj data "choices" hobj]
        rfl
      have h2 : jsOpenAITotalTokens data = none := by
        unfold jsOpenAITotalTokens
        rw [jsGet_of_not_obj data "usage" hobj]
        rfl
      obtain ⟨ct, tk⟩ := st
      simp only [OSt.content] at hc
      subst hc
      simp [hp, h1, h2]

/-- The claim-side Gemini fallback agrees with the code's guarded fallback
unconditionally (a non-object parse contributes no parts and no usage). -/
theorem gFallbackSpec_eq_code (st : GSt) (tr : List Char)
    (hskip : skipJsonWs tr = tr) :
    gFallbackSpec st tr = gFallback st tr := by
  unfold gFallback gFallbackSpec
  by_cases hb : leadsWith ['{'] tr = true
  · rw [if_pos hb]
  · rw [if_neg hb]
    cases hp : jsonParseL tr with
    | none => simp [hp]
    | some data =>
      have hobj : isPlainObj data = false := by
        cases data with
        | obj ms =>
          exfalso
          obtain ⟨rest, hrest⟩ := jsonParseL_obj_head tr ms hp
          rw [hskip] at hrest
          rw [hrest] at hb
          exact hb (by simp [leadsWith])
        | null => rfl
        | bool b => rfl
        | num l => rfl
        | str s => rfl
        | arr xs => rfl
      have h1 : jsGeminiParts data = none := by
        unfold jsGeminiParts
        rw [jsGet_of_not_obj data "candidates" hobj]
        rfl
      have h2 : jsGeminiTokens data = none := by
        unfold jsGeminiTokens
        rw [jsGet_of_not_obj data "usageMetadata" hobj]
        rfl
      simp [hp, gApply, h1, h2]

/-- The incremental line loop equals flushing the blank-line event groups in
order. -/
theorem oLoop_eq_fold :
    ∀ (ls : List (List Char)) (st : OSt) (buf : List (List Char)),
      oLoop st buf ls = (sseEventsSpec buf ls).foldl oFlush st := by
  intro ls
  induction ls with
  | nil => intro st buf; rfl
  | cons l ls ih =>
    intro st buf
    unfold oLoop sseEventsSpec
    dsimp only
    by_cases ht : trimEndL l = []
    · simp [ht, ih]
    · by_cases hd : leadsWith dataMark (trimEndL l) = true
      · simp [ht, hd, ih]
      · simp [ht, hd, ih]

theorem gLoop_eq_fold :
    ∀ (ls : List (List Char)) (st : GSt) (buf : List (List Char)),
      gLoop st buf ls = (sseEventsSpec buf ls).foldl gFlush st := by
  intro ls
  induction ls with
  | nil => intro st buf; rfl
  | cons l ls ih =>
    intro st buf
    unfold gLoop sseEventsSpec
    dsimp only
    by_cases ht : trimEndL l = []
    · simp [ht, ih]
    · by_cases hd : leadsWith dataMark (trimEndL l) = true
      · simp [ht, hd, ih]
      · simp [ht, hd, ih]

/-- C4 amended: both decoders equal their claim-side formulation — events are
the stripped `data:` fragments between blank-line flushes (with a final flush
at end of input), each event's payload is the newline-join of its fragments,
trimmed, with `[DONE]` skipped and unparsable payloads silently ignored, and
when nothing usable was streamed the entire original text is parsed as a
single JSON document.  The stripping rule is the `data:` marker plus all
immediately following whitespace. -/
theorem c4_sse_decoders_spec (text : String) :
    parseOpenAISseStream text = parseOpenAISseStreamSpec text ∧
    parseGeminiSseStream text = parseGeminiSseStreamSpec text := by
  constructor
  · unfold parseOpenAISseStream parseOpenAISseStreamSpec
    dsimp only
    rw [← oLoop_eq_fold]
    by_cases hc : (oLoop ⟨[], none⟩ [] (splitLinesL text.data)).content = []
    · rw [if_pos hc, if_pos hc,
        oFallbackSpec_eq_code _ _ hc (skipJsonWs_trimL text.data)]
    · rw [if_neg hc, if_neg hc]
  · unfold parseGeminiSseStream parseGeminiSseStreamSpec
    dsimp only
    rw [← gLoop_eq_fold]
    by_cases hc : (gLoop ⟨[], none⟩ [] (splitLinesL text.data)).parts.isEmpty = true
    · rw [if_pos hc, if_pos hc,
        gFallbackSpec_eq_code _ _ (skipJsonWs_trimL text.data)]
    · rw [if_neg hc, if_neg hc]

end ClaudeMem
